import Mathlib

/-!
Verification development for the slug-generation and scraping scripts of the
ml-experiments repository.  Python strings are modelled as `List Char`; each
Python function is translated into a structurally recursive Lean function so
that concrete runs reduce by `rfl`/`decide`.  The regex character classes
`[A-Z]`, `[a-z0-9-]`, `\s` and `\w` are modelled over their ASCII members
(every input occurring in the claims and in the repository data is ASCII).
-/

/-- ASCII uppercase letter test, the `[A-Z]` regex class. -/
def isUpperA (c : Char) : Bool := decide ('A' ≤ c ∧ c ≤ 'Z')

/-- Python `str.lower` on an ASCII character. -/
def lowerChar (c : Char) : Char :=
  if 'A' ≤ c ∧ c ≤ 'Z' then Char.ofNat (c.toNat + 32) else c

/-- Python regex `\s` class, ASCII members. -/
def isPySpace (c : Char) : Bool :=
  decide (c = ' ' ∨ c = '\t' ∨ c = '\n' ∨ c = '\x0B' ∨ c = '\x0C' ∨ c = '\r')

/-- Character class `[a-z0-9-]` of the final regex filter. -/
def isSlugChar (c : Char) : Bool :=
  decide (('a' ≤ c ∧ c ≤ 'z') ∨ ('0' ≤ c ∧ c ≤ '9') ∨ c = '-')

/-- Python regex `\w` class, ASCII members (letters, digits, underscore). -/
def isWordA (c : Char) : Bool :=
  decide (('a' ≤ c ∧ c ≤ 'z') ∨ ('A' ≤ c ∧ c ≤ 'Z') ∨ ('0' ≤ c ∧ c ≤ '9') ∨ c = '_')

/-- Scanner for `re.sub` with a single-character class: runs of characters
satisfying `p` are replaced by one copy of `rep` (used for `\s+` → `-` and
`-+` → `-`).  The boolean records whether the scanner is inside a run. -/
def collapseRunsAux (p : Char → Bool) (rep : Char) : Bool → List Char → List Char
  | _, [] => []
  | inRun, c :: cs =>
    if p c then
      if inRun then collapseRunsAux p rep true cs
      else rep :: collapseRunsAux p rep true cs
    else c :: collapseRunsAux p rep false cs

/-- Replace every maximal run of `p`-characters by one `rep`. -/
def collapseRuns (p : Char → Bool) (rep : Char) (s : List Char) : List Char :=
  collapseRunsAux p rep false s

/-- Python `str.strip` with a single strip character. -/
def stripChar (t : Char) (s : List Char) : List Char :=
  ((s.dropWhile (fun c => c == t)).reverse.dropWhile (fun c => c == t)).reverse

namespace CreateSlugs

/-- Model of `re.search(r'\(([A-Z]{2})\)', s)` from `create_slugs.py`: the
first parenthesized two-uppercase-letter group, scanning left to right. -/
def searchParen2 : List Char → Option (Char × Char)
  | [] => none
  | c1 :: tl =>
    match tl with
    | c2 :: c3 :: c4 :: _ =>
      if c1 == '(' && isUpperA c2 && isUpperA c3 && c4 == ')' then some (c2, c3)
      else searchParen2 tl
    | _ => none

/-- Model of `re.sub(r'\s*\([A-Z]{2}\)', rep, s)`: every whitespace run
followed by a two-uppercase-letter parenthetical is replaced by `rep`.
`pend` buffers (reversed) whitespace not yet known to precede a match;
`cand = some buf` means `'('` was consumed and `buf` (at most two uppercase
letters, in order) is the candidate content consumed so far.  When a
candidate fails, the buffered uppercase letters are plain emissions (none
of them is whitespace or `'('`, so the regex scan cannot restart inside
them) and the failing character is reprocessed from the outside state. -/
def sub2UAux (rep : List Char) : List Char → Option (List Char) → List Char → List Char
  | pend, none, [] => pend.reverse
  | pend, some buf, [] => pend.reverse ++ '(' :: buf
  | pend, cand, c :: cs =>
    match cand with
    | none =>
      if isPySpace c then sub2UAux rep (c :: pend) none cs
      else if c == '(' then sub2UAux rep pend (some []) cs
      else pend.reverse ++ c :: sub2UAux rep [] none cs
    | some buf =>
      match buf with
      | [] =>
        if isUpperA c then sub2UAux rep pend (some [c]) cs
        else if isPySpace c then pend.reverse ++ '(' :: sub2UAux rep [c] none cs
        else if c == '(' then pend.reverse ++ '(' :: sub2UAux rep [] (some []) cs
        else pend.reverse ++ '(' :: c :: sub2UAux rep [] none cs
      | [u1] =>
        if isUpperA c then sub2UAux rep pend (some [u1, c]) cs
        else if isPySpace c then pend.reverse ++ '(' :: u1 :: sub2UAux rep [c] none cs
        else if c == '(' then pend.reverse ++ '(' :: u1 :: sub2UAux rep [] (some []) cs
        else pend.reverse ++ '(' :: u1 :: c :: sub2UAux rep [] none cs
      | u1 :: u2 :: _ =>
        if c == ')' then rep ++ sub2UAux rep [] none cs
        else if isPySpace c then pend.reverse ++ '(' :: u1 :: u2 :: sub2UAux rep [c] none cs
        else if c == '(' then pend.reverse ++ '(' :: u1 :: u2 :: sub2UAux rep [] (some []) cs
        else pend.reverse ++ '(' :: u1 :: u2 :: c :: sub2UAux rep [] none cs

/-- Model of `re.sub(r'\s*\([^)]*\)', '', s)`: every whitespace run followed
by a parenthesized span (up to the first closing parenthesis) is deleted.
`pend` buffers pending whitespace; `inner = some buf` means the scanner is
inside a candidate span whose content so far is `buf` (reversed). -/
def subParensAux : List Char → Option (List Char) → List Char → List Char
  | pend, none, [] => pend.reverse
  | pend, some buf, [] => pend.reverse ++ '(' :: buf.reverse
  | pend, inner, c :: cs =>
    match inner with
    | some buf =>
      if c == ')' then subParensAux [] none cs
      else subParensAux pend (some (c :: buf)) cs
    | none =>
      if isPySpace c then subParensAux (c :: pend) none cs
      else if c == '(' then subParensAux pend (some []) cs
      else pend.reverse ++ c :: subParensAux [] none cs

/-- Parenthetical-handling step of `create_slug` in `create_slugs.py`
(lines 38-46): search for a two-uppercase-letter parenthetical; if found,
substitute every `\s*\([A-Z]{2}\)` span with hyphen plus the lowercased
letters of the first match; otherwise delete every `\s*\([^)]*\)` span. -/
def paren_step (s : List Char) : List Char :=
  match searchParen2 s with
  | some (u1, u2) => sub2UAux ['-', lowerChar u1, lowerChar u2] [] none s
  | none => subParensAux [] none s

/-- Scanner for Python `slug.replace("'s", "s")` (left-to-right,
non-overlapping): the boolean records a pending apostrophe. -/
def replacePossessiveAux : Bool → List Char → List Char
  | false, [] => []
  | true, [] => ['\'']
  | false, c :: cs =>
    if c == '\'' then replacePossessiveAux true cs
    else c :: replacePossessiveAux false cs
  | true, c :: cs =>
    if c == 's' then 's' :: replacePossessiveAux false cs
    else if c == '\'' then '\'' :: replacePossessiveAux true cs
    else '\'' :: c :: replacePossessiveAux false cs

/-- Python `slug.replace("'s", "s")`. -/
def replacePossessive (s : List Char) : List Char :=
  replacePossessiveAux false s

/-- Pending-prefix state of the scanner for `slug.replace(' & ', '-')`. -/
inductive AmpState where
  | start
  | sawSpace
  | sawSpaceAmp

/-- Scanner for Python `slug.replace(' & ', '-')` (left-to-right,
non-overlapping), tracking how much of the pattern is pending. -/
def replaceAmpAux : AmpState → List Char → List Char
  | .start, [] => []
  | .sawSpace, [] => [' ']
  | .sawSpaceAmp, [] => [' ', '&']
  | .start, c :: cs =>
    if c == ' ' then replaceAmpAux .sawSpace cs
    else c :: replaceAmpAux .start cs
  | .sawSpace, c :: cs =>
    if c == '&' then replaceAmpAux .sawSpaceAmp cs
    else if c == ' ' then ' ' :: replaceAmpAux .sawSpace cs
    else ' ' :: c :: replaceAmpAux .start cs
  | .sawSpaceAmp, c :: cs =>
    if c == ' ' then '-' :: replaceAmpAux .start cs
    else ' ' :: '&' :: c :: replaceAmpAux .start cs

/-- Python `slug.replace(' & ', '-')`. -/
def replaceAmp (s : List Char) : List Char :=
  replaceAmpAux .start s

/-- Model of `create_slug` from `src/scripts/basketball/create_slugs.py`:
parenthetical handling, lowercasing, possessive collapse, apostrophe
removal, ampersand collapse, period removal, whitespace collapse, residual
character strip, hyphen collapse, and hyphen trim, in source order. -/
def create_slug (s : List Char) : List Char :=
  let s1 := paren_step s
  let s2 := s1.map lowerChar
  let s3 := replacePossessive s2
  let s4 := s3.filter (fun c => c != '\'')
  let s5 := replaceAmp s4
  let s6 := s5.filter (fun c => c != '.')
  let s7 := collapseRuns isPySpace '-' s6
  let s8 := s7.filter isSlugChar
  let s9 := collapseRuns (fun c => c == '-') '-' s8
  stripChar '-' s9

end CreateSlugs

namespace GetAllTeams

/-- Model of `create_slug` from `src/scripts/basketball/get_all_teams.py`:
lowercase, drop characters outside `[\w\s-]`, collapse whitespace to
hyphens, collapse repeated hyphens, trim hyphens. -/
def create_slug (s : List Char) : List Char :=
  let s1 := s.map lowerChar
  let s2 := s1.filter (fun c => isWordA c || isPySpace c || c == '-')
  let s3 := collapseRuns isPySpace '-' s2
  let s4 := collapseRuns (fun c => c == '-') '-' s3
  stripChar '-' s4

end GetAllTeams

namespace Scraper

/-- Parsed HTML table row: its `class` attribute values and the stripped
texts of its `th`/`td` cells (the level at which `scraper.py` reads it). -/
structure HtmlRow where
  classes : List String
  cells : List String

/-- Parsed HTML table as `scraper.py` inspects it: optional `id`
attribute, `class` attribute values, optional `thead` section (its rows)
and optional `tbody` section (its rows). -/
structure HtmlTable where
  id : Option String
  classes : List String
  thead : Option (List HtmlRow)
  tbody : Option (List HtmlRow)

/-- Parsed page: the tables of the fetched document, in document order. -/
structure Page where
  tables : List HtmlTable

/-- Result DataFrame of `scrape_team_gamelogs`: header columns, extracted
game rows, and the metadata columns added in step 8 (the wall-clock
`scraped_at` column is nondeterministic and is not modelled). -/
structure DataFrame where
  columns : List String
  rows : List (List String)
  school_slug : String
  season : Nat

/-- Outcome of a `scrape_team_gamelogs` call: an uncaught Python
exception, `return None`, or a returned DataFrame. -/
inductive ScrapeResult where
  | raised
  | retNone
  | retSome (df : DataFrame)

/-- Model of `soup.find('table', {'id': tid})`: first table with that id. -/
def findTableById (ts : List HtmlTable) (tid : String) : Option HtmlTable :=
  ts.find? (fun t => t.id == some tid)

/-- Table ids probed by `scrape_team_gamelogs`, in probe order. -/
def possible_ids : List String := ["sgl-basic", "gamelog", "games", "schedule"]

/-- Table lookup of `scrape_team_gamelogs` (lines 82-100): first id from
`possible_ids` that finds a table, else first table with class
`stats_table`, else nothing. -/
def findGamelogTable (ts : List HtmlTable) : Option HtmlTable :=
  match possible_ids.findSome? (findTableById ts) with
  | some t => some t
  | none => ts.find? (fun t => t.classes.contains ("stats_table"))

/-- Row filter of step 6: skip `class="thead"` section headers and keep
only rows whose first cell text is nonempty. -/
def keepRow (r : HtmlRow) : Bool :=
  !(r.classes.contains ("thead")) &&
    (match r.cells with
     | [] => false
     | c :: _ => c != "")

/-- Model of `scrape_team_gamelogs` from `scraper.py`.  The HTTP fetch is
the external input: `Except.error` is a raised
`requests.exceptions.RequestException` (including bad status codes from
`raise_for_status`), `Except.ok` the parsed page.  Missing `thead`/`tbody`
sections or an empty `thead` raise uncaught `AttributeError`/`IndexError`
in the source, as does a `pd.DataFrame` width mismatch; these become
`ScrapeResult.raised`. -/
def scrape_team_gamelogs (school_slug : String) (year : Nat)
    (fetch : Except Unit Page) : ScrapeResult :=
  match fetch with
  | .error _ => .retNone
  | .ok page =>
    match findGamelogTable page.tables with
    | none => .retNone
    | some table =>
      match table.thead with
      | none => .raised
      | some theadRows =>
        match theadRows.getLast? with
        | none => .raised
        | some headersRow =>
          let headers := headersRow.cells
          match table.tbody with
          | none => .raised
          | some bodyRows =>
            let game_data := (bodyRows.filter keepRow).map (fun r => r.cells)
            if game_data.any (fun r => r.length != headers.length) then .raised
            else .retSome ⟨headers, game_data, school_slug, year⟩

end Scraper

/-- Predicate of the spec's Slug data type: only lowercase ASCII letters,
digits and hyphens, no leading or trailing hyphen, no "--" substring. -/
def isValidSlug (s : List Char) : Prop :=
  (∀ c ∈ s, isSlugChar c = true) ∧ s.head? ≠ some '-' ∧ s.getLast? ≠ some '-' ∧
    ¬ (['-', '-'] <:+: s)

/-- Adjacent-pair relation forbidding two consecutive hyphens. -/
def noDbl (x y : Char) : Prop := ¬ (x = '-' ∧ y = '-')

theorem collapseRunsAux_mem (p : Char → Bool) (rep : Char) :
    ∀ (l : List Char) (b : Bool) (c : Char),
      c ∈ collapseRunsAux p rep b l → c = rep ∨ (c ∈ l ∧ p c = false) := by
  intro l
  induction l with
  | nil => intro b c h; simp [collapseRunsAux] at h
  | cons a l ih =>
    intro b c h
    simp only [collapseRunsAux] at h
    by_cases hpa : p a = true
    · rw [if_pos hpa] at h
      cases b with
      | true =>
        rcases ih true c h with h1 | ⟨h2, h3⟩
        · exact Or.inl h1
        · exact Or.inr ⟨List.mem_cons_of_mem a h2, h3⟩
      | false =>
        rcases List.mem_cons.mp h with rfl | h4
        · exact Or.inl rfl
        · rcases ih true c h4 with h1 | ⟨h2, h3⟩
          · exact Or.inl h1
          · exact Or.inr ⟨List.mem_cons_of_mem a h2, h3⟩
    · rw [if_neg hpa] at h
      rcases List.mem_cons.mp h with rfl | h4
      · exact Or.inr ⟨List.mem_cons_self _ _, Bool.not_eq_true _ ▸ hpa⟩
      · rcases ih false c h4 with h1 | ⟨h2, h3⟩
        · exact Or.inl h1
        · exact Or.inr ⟨List.mem_cons_of_mem a h2, h3⟩

theorem collapseHyphensAux_true_head :
    ∀ (l : List Char) (c : Char),
      (collapseRunsAux (fun x => x == '-') '-' true l).head? = some c → (c == '-') = false := by
  intro l
  induction l with
  | nil => intro c h; simp [collapseRunsAux] at h
  | cons a l ih =>
    intro c h
    simp only [collapseRunsAux] at h
    by_cases hpa : (a == '-') = true
    · rw [if_pos hpa] at h
      exact ih c h
    · rw [if_neg hpa] at h
      simp only [List.head?_cons, Option.some.injEq] at h
      subst h
      exact Bool.not_eq_true _ ▸ hpa

theorem collapseHyphensAux_chain :
    ∀ (l : List Char) (b : Bool),
      List.Chain' noDbl (collapseRunsAux (fun x => x == '-') '-' b l) := by
  intro l
  induction l with
  | nil => intro b; simp [collapseRunsAux]
  | cons a l ih =>
    intro b
    simp only [collapseRunsAux]
    by_cases hpa : (a == '-') = true
    · rw [if_pos hpa]
      cases b with
      | true => exact ih true
      | false =>
        show List.Chain' noDbl ('-' :: collapseRunsAux (fun x => x == '-') '-' true l)
        rw [List.chain'_cons']
        refine ⟨?_, ih true⟩
        intro y hy
        intro hcon
        have := collapseHyphensAux_true_head l y hy
        rw [hcon.2] at this
        simp at this
    · rw [if_neg hpa]
      rw [List.chain'_cons']
      refine ⟨?_, ih false⟩
      intro y hy
      intro hcon
      rw [hcon.1] at hpa
      simp at hpa

theorem chain_noDbl_iff : ∀ (l : List Char), List.Chain' noDbl l ↔ ¬ (['-', '-'] <:+: l) := by
  intro l
  induction l with
  | nil =>
    simp only [List.chain'_nil, true_iff]
    intro h
    have := h.sublist.length_le
    simp at this
  | cons a l ih =>
    constructor
    · intro hch hinf
      obtain ⟨u, v, huv⟩ := hinf
      cases u with
      | nil =>
        simp only [List.nil_append, List.cons_append] at huv
        cases huv
        exact (List.chain'_cons.mp hch).1 ⟨rfl, rfl⟩
      | cons x u2 =>
        simp only [List.cons_append] at huv
        have htl : l = u2 ++ ['-', '-'] ++ v := (List.cons.injEq _ _ _ _ ▸ huv).2.symm
        exact (ih.mp hch.tail) ⟨u2, v, htl.symm⟩
    · intro hni
      rw [List.chain'_cons']
      constructor
      · intro y hy hcon
        cases l with
        | nil => simp at hy
        | cons b l2 =>
          obtain ⟨ha, hy2⟩ := hcon
          subst ha
          subst hy2
          have hb : b = '-' := by simpa using hy
          subst hb
          exact hni ⟨[], l2, rfl⟩
      · refine ih.mpr ?_
        intro h
        exact hni (List.infix_cons h)

theorem head?_dropWhile_false (p : Char → Bool) :
    ∀ (l : List Char) (c : Char), (l.dropWhile p).head? = some c → p c = false := by
  intro l
  induction l with
  | nil => intro c h; simp at h
  | cons a l ih =>
    intro c h
    rw [List.dropWhile_cons] at h
    by_cases hpa : p a = true
    · rw [if_pos hpa] at h
      exact ih c h
    · rw [if_neg hpa] at h
      simp only [List.head?_cons, Option.some.injEq] at h
      subst h
      exact Bool.not_eq_true _ ▸ hpa

theorem getLast?_dropWhile_of_some (p : Char → Bool) (l : List Char) (c : Char)
    (h : (l.dropWhile p).getLast? = some c) : l.getLast? = some c := by
  obtain ⟨pre, hpre⟩ := List.dropWhile_suffix p (l := l)
  rw [← hpre, List.getLast?_append, h]
  rfl

theorem stripChar_head_false (t : Char) (l : List Char) :
    ∀ c, (stripChar t l).head? = some c → (c == t) = false := by
  intro c h
  rw [stripChar, List.head?_reverse] at h
  have h2 := getLast?_dropWhile_of_some (fun x => x == t) _ _ h
  rw [List.getLast?_reverse] at h2
  exact head?_dropWhile_false (fun x => x == t) l c h2

theorem stripChar_getLast_false (t : Char) (l : List Char) :
    ∀ c, (stripChar t l).getLast? = some c → (c == t) = false := by
  intro c h
  rw [stripChar, List.getLast?_reverse] at h
  exact head?_dropWhile_false (fun x => x == t) ((l.dropWhile (fun x => x == t)).reverse) c h

theorem stripChar_subset (t : Char) (l : List Char) : ∀ c ∈ stripChar t l, c ∈ l := by
  intro c hc
  rw [stripChar, List.mem_reverse] at hc
  have h1 : c ∈ (l.dropWhile (fun x => x == t)).reverse :=
    (List.dropWhile_suffix _).sublist.subset hc
  rw [List.mem_reverse] at h1
  exact (List.dropWhile_suffix _).sublist.subset h1

theorem chain_dropWhile (p : Char → Bool) :
    ∀ (l : List Char), List.Chain' noDbl l → List.Chain' noDbl (l.dropWhile p) := by
  intro l h
  induction l with
  | nil => exact h
  | cons a l ih =>
    rw [List.dropWhile_cons]
    by_cases hpa : p a = true
    · rw [if_pos hpa]
      exact ih h.tail
    · rw [if_neg hpa]
      exact h

theorem chain_reverse_noDbl (l : List Char) (h : List.Chain' noDbl l) :
    List.Chain' noDbl l.reverse := by
  rw [List.chain'_reverse]
  exact h.imp (fun a b hab => fun hcon => hab ⟨hcon.2, hcon.1⟩)

theorem stripChar_chain (t : Char) (l : List Char) (h : List.Chain' noDbl l) :
    List.Chain' noDbl (stripChar t l) := by
  rw [stripChar]
  exact chain_reverse_noDbl _ (chain_dropWhile _ _ (chain_reverse_noDbl _ (chain_dropWhile _ _ h)))

theorem validSlug_final (t : List Char) :
    isValidSlug (stripChar '-' (collapseRuns (fun c => c == '-') '-' (t.filter isSlugChar))) := by
  refine ⟨?_, ?_, ?_, ?_⟩
  · intro c hc
    have hcq := stripChar_subset _ _ c hc
    rw [collapseRuns] at hcq
    rcases collapseRunsAux_mem _ _ _ _ _ hcq with rfl | ⟨hmem, _⟩
    · decide
    · exact (List.mem_filter.mp hmem).2
  · intro h
    have := stripChar_head_false _ _ _ h
    simp at this
  · intro h
    have := stripChar_getLast_false _ _ _ h
    simp at this
  · rw [← chain_noDbl_iff]
    rw [collapseRuns]
    exact stripChar_chain _ _ (collapseHyphensAux_chain _ _)

/-- C1: for every input string, the output of create_slug contains only
lowercase ASCII letters, digits and hyphens, has no leading or trailing
hyphen, and contains no "--" substring. -/
theorem create_slug_output_valid (s : List Char) :
    isValidSlug (CreateSlugs.create_slug s) := by
  simp only [CreateSlugs.create_slug]
  exact validSlug_final _

/-- C1 witness: the invariant instantiated at a concrete input. -/
theorem create_slug_output_valid_witness :
    isValidSlug (CreateSlugs.create_slug (("A  B- ()").toList)) :=
  create_slug_output_valid (("A  B- ()").toList)

/-- C2 counterexample: the input "A (FL) (NY)" contains two parenthesized
spans, and the parenthetical-handling step of create_slug transforms both
of them (each span becomes "-fl"), not at most one: neither span survives
in the output. -/
theorem paren_step_transforms_both_spans :
    CreateSlugs.paren_step (("A (FL) (NY)").toList) = ("A-fl-fl").toList ∧
      ¬ ((("(FL)").toList) <:+: ("A-fl-fl").toList) ∧
      ¬ ((("(NY)").toList) <:+: ("A-fl-fl").toList) :=
  ⟨rfl, by decide, by decide⟩

/-- C4: evaluation of create_slug at the spec's test vectors.  The code
returns "albany-ny" for "Albany (NY)", contradicting the spec vector
"albany" and the function's own docstring; the remaining seven vectors
hold.  The inputs with apostrophes are written as explicit character
lists. -/
theorem create_slug_spec_vectors_eval :
    CreateSlugs.create_slug (("Albany (NY)").toList) = ("albany-ny").toList ∧
      ("albany-ny").toList ≠ ("albany").toList ∧
      CreateSlugs.create_slug (("Miami (FL)").toList) = ("miami-fl").toList ∧
      CreateSlugs.create_slug
          (['S', 'a', 'i', 'n', 't', ' ', 'M', 'a', 'r', 'y', '\'', 's', ' ', '(', 'C', 'A', ')'])
        = ("saint-marys-ca").toList ∧
      CreateSlugs.create_slug (("Iowa State").toList) = ("iowa-state").toList ∧
      CreateSlugs.create_slug (("Arkansas-Pine Bluff").toList) = ("arkansas-pine-bluff").toList ∧
      CreateSlugs.create_slug (("William & Mary").toList) = ("william-mary").toList ∧
      CreateSlugs.create_slug (['S', 't', '.', ' ', 'J', 'o', 'h', 'n', '\'', 's'])
        = ("st-johns").toList ∧
      CreateSlugs.create_slug [] = [] :=
  ⟨rfl, by decide, rfl, rfl, rfl, rfl, rfl, rfl, rfl⟩

/-- C6 counterexample: "Texas A&M" contains an ampersand, yet the two slug
implementations agree on it (both produce "texas-am"), so they do not
disagree on every input containing a parenthesis, apostrophe or
ampersand. -/
theorem slug_impls_agree_on_ampersand_input :
    '&' ∈ ("Texas A&M").toList ∧
      CreateSlugs.create_slug (("Texas A&M").toList)
        = GetAllTeams.create_slug (("Texas A&M").toList) ∧
      CreateSlugs.create_slug (("Texas A&M").toList) = ("texas-am").toList :=
  ⟨by decide, rfl, rfl⟩

/-- C6 amended: there exists an input containing a parenthesis on which
the two slug implementations disagree: on "Miami (fl)" the rich rule
deletes the parenthetical ("miami") while the simple rule keeps its
letters ("miami-fl"). -/
theorem slug_impls_differ_on_lowercase_paren :
    '(' ∈ ("Miami (fl)").toList ∧
      CreateSlugs.create_slug (("Miami (fl)").toList) = ("miami").toList ∧
      GetAllTeams.create_slug (("Miami (fl)").toList) = ("miami-fl").toList ∧
      ("miami").toList ≠ ("miami-fl").toList :=
  ⟨by decide, rfl, rfl, by decide⟩

/-- C8: the simple create_slug of get_all_teams.py keeps the word
character underscore, which is outside the slug character class, so its
output can violate the Slug character-set invariant. -/
theorem simple_slug_keeps_underscore :
    GetAllTeams.create_slug (("a_b").toList) = ("a_b").toList ∧
      '_' ∈ GetAllTeams.create_slug (("a_b").toList) ∧ isSlugChar '_' = false :=
  ⟨rfl, by decide, by decide⟩

/-- C9: parenthetical detection runs before case folding and is
case-sensitive: "Miami (FL)" keeps the state code as "-fl" while
"Miami (fl)" has its parenthetical deleted as descriptive, so the two
inputs, differing only in the case of the parenthetical, give different
slugs. -/
theorem paren_detection_case_sensitive :
    CreateSlugs.create_slug (("Miami (FL)").toList) = ("miami-fl").toList ∧
      CreateSlugs.create_slug (("Miami (fl)").toList) = ("miami").toList ∧
      ("miami-fl").toList ≠ ("miami").toList :=
  ⟨rfl, rfl, by decide⟩

/-- C10: scrape_team_gamelogs returns None (not an exception) whenever the
fetch raises a RequestException or the page has no table with one of the
probed ids and none with class stats_table; and it returns a DataFrame
only when the fetch succeeded and such a table was found. -/
theorem scrape_gamelogs_error_paths (slug : String) (year : Nat)
    (fetch : Except Unit Scraper.Page) :
    ((∃ e, fetch = .error e) →
        Scraper.scrape_team_gamelogs slug year fetch = .retNone) ∧
      (∀ page, fetch = .ok page →
        (∀ t ∈ page.tables, (∀ tid ∈ Scraper.possible_ids, t.id ≠ some tid) ∧
            t.classes.contains ("stats_table") = false) →
        Scraper.scrape_team_gamelogs slug year fetch = .retNone) ∧
      (∀ df, Scraper.scrape_team_gamelogs slug year fetch = .retSome df →
        ∃ page t, fetch = .ok page ∧
          Scraper.findGamelogTable page.tables = some t ∧ t ∈ page.tables ∧
          ((∃ tid ∈ Scraper.possible_ids, t.id = some tid) ∨
            t.classes.contains ("stats_table") = true)) := by
  refine ⟨?_, ?_, ?_⟩
  · rintro ⟨e, rfl⟩
    rfl
  · rintro page rfl h
    have hfind : Scraper.findGamelogTable page.tables = none := by
      have h1 : Scraper.possible_ids.findSome? (Scraper.findTableById page.tables) = none := by
        rw [List.findSome?_eq_none_iff]
        intro tid htid
        rw [Scraper.findTableById, List.find?_eq_none]
        intro t ht hbeq
        exact ((h t ht).1 tid htid) (by simpa using hbeq)
      have h2 : page.tables.find? (fun t => t.classes.contains ("stats_table")) = none := by
        rw [List.find?_eq_none]
        intro t ht hbeq
        rw [(h t ht).2] at hbeq
        exact Bool.false_ne_true hbeq
      rw [Scraper.findGamelogTable, h1, h2]
    simp only [Scraper.scrape_team_gamelogs, hfind]
  · intro df hdf
    match hfetch : fetch with
    | .error e => exact absurd hdf (by simp [Scraper.scrape_team_gamelogs])
    | .ok page =>
      refine ⟨page, ?_⟩
      simp only [Scraper.scrape_team_gamelogs] at hdf
      match htab : Scraper.findGamelogTable page.tables with
      | none => rw [htab] at hdf; exact absurd hdf (by simp)
      | some t =>
        refine ⟨t, rfl, rfl, ?_, ?_⟩
        · rw [Scraper.findGamelogTable] at htab
          match hfs : Scraper.possible_ids.findSome? (Scraper.findTableById page.tables) with
          | some t0 =>
            rw [hfs] at htab
            obtain ⟨tid, _, hfound⟩ := List.exists_of_findSome?_eq_some hfs
            cases htab
            exact List.mem_of_find?_eq_some hfound
          | none =>
            rw [hfs] at htab
            exact List.mem_of_find?_eq_some htab
        · rw [Scraper.findGamelogTable] at htab
          match hfs : Scraper.possible_ids.findSome? (Scraper.findTableById page.tables) with
          | some t0 =>
            rw [hfs] at htab
            obtain ⟨tid, htid, hfound⟩ := List.exists_of_findSome?_eq_some hfs
            cases htab
            refine Or.inl ⟨tid, htid, ?_⟩
            have := List.find?_some hfound
            simpa using this
          | none =>
            rw [hfs] at htab
            have htab2 : page.tables.find? (fun u => u.classes.contains ("stats_table")) = some t :=
              htab
            have h5 := List.find?_some htab2
            exact Or.inr (by simpa using h5)

/-- C10 witness: a failing fetch yields None for a concrete call. -/
theorem scrape_gamelogs_error_paths_witness :
    Scraper.scrape_team_gamelogs ("iowa-state") 2026 (.error ()) = .retNone :=
  (scrape_gamelogs_error_paths ("iowa-state") 2026 (.error ())).1 ⟨(), rfl⟩

theorem searchParen2_cons (c : Char) (t : List Char) (hc : c ≠ '(') :
    CreateSlugs.searchParen2 (c :: t) = CreateSlugs.searchParen2 t := by
  have hb : (c == '(') = false := by simpa using hc
  match t with
  | [] => rfl
  | [a] => rfl
  | [a, b] => rfl
  | a :: b :: d :: rest =>
    have heq : CreateSlugs.searchParen2 (c :: a :: b :: d :: rest)
        = if (c == '(' && isUpperA a && isUpperA b && d == ')') = true then some (a, b)
          else CreateSlugs.searchParen2 (a :: b :: d :: rest) := rfl
    rw [heq, if_neg]
    simp [hb]

theorem searchParen2_none_tail (c : Char) (t : List Char)
    (h : CreateSlugs.searchParen2 (c :: t) = none) :
    CreateSlugs.searchParen2 t = none := by
  match t with
  | [] => rfl
  | [a] => rfl
  | [a, b] => rfl
  | a :: b :: d :: rest =>
    have heq : CreateSlugs.searchParen2 (c :: a :: b :: d :: rest)
        = if (c == '(' && isUpperA a && isUpperA b && d == ')') = true then some (a, b)
          else CreateSlugs.searchParen2 (a :: b :: d :: rest) := rfl
    rw [heq] at h
    by_cases hcond : (c == '(' && isUpperA a && isUpperA b && d == ')') = true
    · rw [if_pos hcond] at h
      exact absurd h (by simp)
    · rw [if_neg hcond] at h
      exact h

theorem searchParen2_append_left (x r : List Char) (hx : ∀ c ∈ x, c ≠ '(') :
    CreateSlugs.searchParen2 (x ++ r) = CreateSlugs.searchParen2 r := by
  induction x with
  | nil => rfl
  | cons c x ih =>
    rw [List.cons_append, searchParen2_cons c _ (hx c (List.mem_cons_self _ _))]
    exact ih (fun a ha => hx a (List.mem_cons_of_mem _ ha))

theorem searchParen2_none_drop (u v : List Char)
    (h : CreateSlugs.searchParen2 (u ++ v) = none) :
    CreateSlugs.searchParen2 v = none := by
  induction u with
  | nil => exact h
  | cons c u ih =>
    rw [List.cons_append] at h
    exact ih (searchParen2_none_tail _ _ h)

theorem searchParen2_no_paren (s : List Char) (h : '(' ∉ s) :
    CreateSlugs.searchParen2 s = none := by
  have h2 := searchParen2_append_left s [] (fun c hc heq => h (heq ▸ hc))
  simpa using h2

theorem subParensAux_flush :
    ∀ (s : List Char), (∀ c ∈ s, isPySpace c = false ∧ c ≠ '(') →
      ∀ p, CreateSlugs.subParensAux p none s = p.reverse ++ s := by
  intro s
  induction s with
  | nil => intro _ p; simp [CreateSlugs.subParensAux]
  | cons c cs ih =>
    intro h p
    obtain ⟨hws, hnp⟩ := h c (List.mem_cons_self _ _)
    have hb : (c == '(') = false := by simpa using hnp
    have heq : CreateSlugs.subParensAux p none (c :: cs)
        = if isPySpace c = true then CreateSlugs.subParensAux (c :: p) none cs
          else if (c == '(') = true then CreateSlugs.subParensAux p (some []) cs
          else p.reverse ++ c :: CreateSlugs.subParensAux [] none cs := rfl
    rw [heq, if_neg (by simp [hws]), if_neg (by simp [hb])]
    have := ih (fun a ha => h a (List.mem_cons_of_mem _ ha)) []
    rw [this]
    simp

theorem map_id_of_eq (f : Char → Char) :
    ∀ (l : List Char), (∀ c ∈ l, f c = c) → l.map f = l := by
  intro l
  induction l with
  | nil => intro _; rfl
  | cons c cs ih =>
    intro h
    rw [List.map_cons, h c (List.mem_cons_self _ _), ih (fun a ha => h a (List.mem_cons_of_mem _ ha))]

theorem lowerChar_slug (c : Char) (h : isSlugChar c = true) : lowerChar c = c := by
  rw [lowerChar, if_neg]
  intro hcon
  rw [isSlugChar, decide_eq_true_eq] at h
  rcases h with ⟨h1, _⟩ | ⟨_, h2⟩ | rfl
  · exact absurd (le_trans h1 hcon.2) (by decide)
  · exact absurd (le_trans hcon.1 h2) (by decide)
  · exact absurd hcon.1 (by decide)

theorem replacePossessiveAux_id :
    ∀ (s : List Char), '\'' ∉ s → CreateSlugs.replacePossessiveAux false s = s := by
  intro s
  induction s with
  | nil => intro _; rfl
  | cons c cs ih =>
    intro h
    have hb : (c == '\'') = false :=
      beq_eq_false_iff_ne.mpr (fun heq => h (heq ▸ List.mem_cons_self c cs))
    have heq : CreateSlugs.replacePossessiveAux false (c :: cs)
        = if (c == '\'') = true then CreateSlugs.replacePossessiveAux true cs
          else c :: CreateSlugs.replacePossessiveAux false cs := rfl
    rw [heq, if_neg (by simp [hb])]
    rw [ih (fun ha => h (List.mem_cons_of_mem _ ha))]

theorem replaceAmpAux_id :
    ∀ (s : List Char), '&' ∉ s →
      CreateSlugs.replaceAmpAux .start s = s ∧
        CreateSlugs.replaceAmpAux .sawSpace s = ' ' :: s := by
  intro s
  induction s with
  | nil => intro _; exact ⟨rfl, rfl⟩
  | cons c cs ih =>
    intro h
    have hcs : '&' ∉ cs := fun hx => h (List.mem_cons_of_mem _ hx)
    have hamp : (c == '&') = false :=
      beq_eq_false_iff_ne.mpr (fun heq => h (heq ▸ List.mem_cons_self c cs))
    obtain ⟨ih1, ih2⟩ := ih hcs
    constructor
    · have heq : CreateSlugs.replaceAmpAux .start (c :: cs)
          = if (c == ' ') = true then CreateSlugs.replaceAmpAux .sawSpace cs
            else c :: CreateSlugs.replaceAmpAux .start cs := rfl
      rw [heq]
      by_cases hsp : (c == ' ') = true
      · rw [if_pos hsp, ih2, show c = ' ' from by simpa using hsp]
      · rw [if_neg hsp, ih1]
    · have heq : CreateSlugs.replaceAmpAux .sawSpace (c :: cs)
          = if (c == '&') = true then CreateSlugs.replaceAmpAux .sawSpaceAmp cs
            else if (c == ' ') = true then ' ' :: CreateSlugs.replaceAmpAux .sawSpace cs
            else ' ' :: c :: CreateSlugs.replaceAmpAux .start cs := rfl
      rw [heq, if_neg (by simp [hamp])]
      by_cases hsp : (c == ' ') = true
      · rw [if_pos hsp, ih2, show c = ' ' from by simpa using hsp]
      · rw [if_neg hsp, ih1]

theorem collapseRunsAux_false_id (p : Char → Bool) (rep : Char) :
    ∀ (s : List Char), (∀ c ∈ s, p c = false) → collapseRunsAux p rep false s = s := by
  intro s
  induction s with
  | nil => intro _; rfl
  | cons c cs ih =>
    intro h
    simp only [collapseRunsAux]
    rw [if_neg (by simp [h c (List.mem_cons_self _ _)])]
    rw [ih (fun a ha => h a (List.mem_cons_of_mem _ ha))]

theorem collapseHyphensAux_id :
    ∀ (l : List Char), List.Chain' noDbl l →
      collapseRunsAux (fun x => x == '-') '-' false l = l ∧
        (l.head? ≠ some '-' → collapseRunsAux (fun x => x == '-') '-' true l = l) := by
  intro l
  induction l with
  | nil => intro _; exact ⟨rfl, fun _ => rfl⟩
  | cons c cs ih =>
    intro h
    obtain ⟨hhead, htail⟩ := List.chain'_cons'.mp h
    obtain ⟨ih1, ih2⟩ := ih htail
    constructor
    · simp only [collapseRunsAux]
      by_cases hc : (c == '-') = true
      · rw [if_pos hc]
        have hcs : cs.head? ≠ some '-' := by
          intro hh
          have := hhead '-' (by rw [hh]; rfl)
          exact this ⟨by simpa using hc, rfl⟩
        show '-' :: collapseRunsAux (fun x => x == '-') '-' true cs = c :: cs
        rw [ih2 hcs, show c = '-' from by simpa using hc]
      · rw [if_neg hc, ih1]
    · intro hne
      have hc : (c == '-') = false :=
        beq_eq_false_iff_ne.mpr (fun heq => hne (by rw [heq]; rfl))
      simp only [collapseRunsAux]
      rw [if_neg (by simp [hc]), ih1]

theorem dropWhile_id_of_head (l : List Char) (t : Char) (h : l.head? ≠ some t) :
    l.dropWhile (fun x => x == t) = l := by
  cases l with
  | nil => rfl
  | cons c cs =>
    rw [List.dropWhile_cons, if_neg]
    intro hcon
    exact h (by rw [List.head?_cons, show c = t from by simpa using hcon])

theorem stripChar_id (l : List Char) (h1 : l.head? ≠ some '-') (h2 : l.getLast? ≠ some '-') :
    stripChar '-' l = l := by
  rw [stripChar, dropWhile_id_of_head l '-' h1,
    dropWhile_id_of_head l.reverse '-' (by rw [List.head?_reverse]; exact h2)]
  exact List.reverse_reverse l

/-- C3: create_slug is the identity on already-valid slugs. -/
theorem create_slug_id_on_valid (s : List Char) (h : isValidSlug s) :
    CreateSlugs.create_slug s = s := by
  obtain ⟨h1, h2, h3, h4⟩ := h
  have hnp : ∀ c ∈ s, c ≠ '(' := by
    intro c hc heq
    have hpq := h1 c hc
    rw [heq] at hpq
    exact absurd hpq (by decide)
  have hws : ∀ c ∈ s, isPySpace c = false := by
    intro c hc
    have hpq := h1 c hc
    by_contra hx
    rw [Bool.not_eq_false, isPySpace, decide_eq_true_eq] at hx
    rcases hx with rfl | rfl | rfl | rfl | rfl | rfl <;> exact absurd hpq (by decide)
  have hq : '\'' ∉ s := fun hc => absurd (h1 _ hc) (by decide)
  have hamp : '&' ∉ s := fun hc => absurd (h1 _ hc) (by decide)
  have hdot : '.' ∉ s := fun hc => absurd (h1 _ hc) (by decide)
  have hsearch : CreateSlugs.searchParen2 s = none :=
    searchParen2_no_paren s (fun hc => (hnp '(' hc) rfl)
  have hps : CreateSlugs.paren_step s = s := by
    rw [CreateSlugs.paren_step, hsearch]
    have := subParensAux_flush s (fun c hc => ⟨hws c hc, hnp c hc⟩) []
    simpa using this
  have hmap : s.map lowerChar = s := map_id_of_eq _ s (fun c hc => lowerChar_slug c (h1 c hc))
  have hposs : CreateSlugs.replacePossessive s = s := replacePossessiveAux_id s hq
  have hf1 : s.filter (fun c => c != '\'') = s :=
    List.filter_eq_self.mpr (fun a ha => by
      rw [bne_iff_ne]
      intro heq
      exact hq (heq ▸ ha))
  have hA : CreateSlugs.replaceAmp s = s := (replaceAmpAux_id s hamp).1
  have hf2 : s.filter (fun c => c != '.') = s :=
    List.filter_eq_self.mpr (fun a ha => by
      rw [bne_iff_ne]
      intro heq
      exact hdot (heq ▸ ha))
  have hcw : collapseRuns isPySpace '-' s = s := collapseRunsAux_false_id _ _ s hws
  have hf3 : s.filter isSlugChar = s := List.filter_eq_self.mpr h1
  have hch : List.Chain' noDbl s := (chain_noDbl_iff s).mpr h4
  have hcoll : collapseRuns (fun c => c == '-') '-' s = s := (collapseHyphensAux_id s hch).1
  have hstrip : stripChar '-' s = s := stripChar_id s h2 h3
  simp only [CreateSlugs.create_slug]
  rw [hps, hmap, hposs, hf1, hA, hf2, hcw, hf3, hcoll, hstrip]

/-- C3 witness: "iowa-state" is a valid slug and create_slug fixes it. -/
theorem create_slug_id_on_valid_witness :
    isValidSlug (("iowa-state").toList) ∧
      CreateSlugs.create_slug (("iowa-state").toList) = ("iowa-state").toList := by
  have hv : isValidSlug (("iowa-state").toList) := by
    unfold isValidSlug
    exact ⟨by decide, by decide, by decide, by decide⟩
  exact ⟨hv, create_slug_id_on_valid _ hv⟩

theorem pySpace_char_facts (c : Char) (h : isPySpace c = true) :
    c ≠ '\'' ∧ c ≠ '.' ∧ c ≠ '&' ∧ c ≠ '(' ∧ lowerChar c = c := by
  rw [isPySpace, decide_eq_true_eq] at h
  rcases h with rfl | rfl | rfl | rfl | rfl | rfl <;>
    exact ⟨by decide, by decide, by decide, by decide, rfl⟩

theorem subParensAux_all_ws :
    ∀ (w : List Char), (∀ c ∈ w, isPySpace c = true) →
      ∀ (p r : List Char),
        CreateSlugs.subParensAux p none (w ++ r) = CreateSlugs.subParensAux (w.reverse ++ p) none r := by
  intro w
  induction w with
  | nil => intro _ p r; simp
  | cons c w ih =>
    intro h p r
    have hc := h c (List.mem_cons_self _ _)
    have heq : CreateSlugs.subParensAux p none (c :: (w ++ r))
        = if isPySpace c = true then CreateSlugs.subParensAux (c :: p) none (w ++ r)
          else if (c == '(') = true then CreateSlugs.subParensAux p (some []) (w ++ r)
          else p.reverse ++ c :: CreateSlugs.subParensAux [] none (w ++ r) := rfl
    rw [List.cons_append, heq, if_pos hc, ih (fun a ha => h a (List.mem_cons_of_mem _ ha))]
    simp

theorem collapseRunsAux_true_nil (p : Char → Bool) (rep : Char) :
    ∀ (l : List Char), (∀ c ∈ l, p c = true) → collapseRunsAux p rep true l = [] := by
  intro l
  induction l with
  | nil => intro _; rfl
  | cons c cs ih =>
    intro h
    simp only [collapseRunsAux]
    rw [if_pos (h c (List.mem_cons_self _ _))]
    exact ih (fun a ha => h a (List.mem_cons_of_mem _ ha))

/-- C7: create_slug is total by construction (it is a function on all of
`List Char`), and every whitespace-only input, the empty string included,
normalizes to the empty string. -/
theorem whitespace_only_empty_slug (s : List Char) (h : ∀ c ∈ s, isPySpace c = true) :
    CreateSlugs.create_slug s = [] := by
  have hnp : '(' ∉ s := fun hc => absurd (h '(' hc) (by decide)
  have hsearch : CreateSlugs.searchParen2 s = none := searchParen2_no_paren s hnp
  have hps : CreateSlugs.paren_step s = s := by
    rw [CreateSlugs.paren_step, hsearch]
    have h0 := subParensAux_all_ws s h [] []
    rw [List.append_nil] at h0
    rw [h0]
    simp [CreateSlugs.subParensAux]
  have hmap : s.map lowerChar = s :=
    map_id_of_eq _ s (fun c hc => (pySpace_char_facts c (h c hc)).2.2.2.2)
  have hposs : CreateSlugs.replacePossessive s = s :=
    replacePossessiveAux_id s (fun hc => (pySpace_char_facts _ (h _ hc)).1 rfl)
  have hf1 : s.filter (fun c => c != '\'') = s :=
    List.filter_eq_self.mpr (fun a ha => by
      rw [bne_iff_ne]
      exact (pySpace_char_facts a (h a ha)).1)
  have hA : CreateSlugs.replaceAmp s = s :=
    (replaceAmpAux_id s (fun hc => (pySpace_char_facts _ (h _ hc)).2.2.1 rfl)).1
  have hf2 : s.filter (fun c => c != '.') = s :=
    List.filter_eq_self.mpr (fun a ha => by
      rw [bne_iff_ne]
      exact (pySpace_char_facts a (h a ha)).2.1)
  simp only [CreateSlugs.create_slug]
  rw [hps, hmap, hposs, hf1, hA, hf2]
  cases s with
  | nil => rfl
  | cons c0 cs0 =>
    have hws7 : collapseRuns isPySpace '-' (c0 :: cs0) = ['-'] := by
      rw [collapseRuns]
      simp only [collapseRunsAux]
      rw [if_pos (h c0 (List.mem_cons_self _ _))]
      show '-' :: collapseRunsAux isPySpace '-' true cs0 = ['-']
      rw [collapseRunsAux_true_nil isPySpace '-' cs0 (fun a ha => h a (List.mem_cons_of_mem _ ha))]
    rw [hws7]
    rfl

/-- C7 witness: a concrete whitespace-only input produces the empty slug. -/
theorem whitespace_only_empty_slug_witness :
    (∀ c ∈ [' ', '\t'], isPySpace c = true) ∧ CreateSlugs.create_slug [' ', '\t'] = [] :=
  ⟨by decide, whitespace_only_empty_slug [' ', '\t'] (by decide)⟩

theorem searchParen2_head_found (u1 u2 : Char) (r : List Char)
    (h1 : isUpperA u1 = true) (h2 : isUpperA u2 = true) :
    CreateSlugs.searchParen2 ('(' :: u1 :: u2 :: ')' :: r) = some (u1, u2) := by
  have heq : CreateSlugs.searchParen2 ('(' :: u1 :: u2 :: ')' :: r)
      = if ('(' == '(' && isUpperA u1 && isUpperA u2 && ')' == ')') = true then some (u1, u2)
        else CreateSlugs.searchParen2 (u1 :: u2 :: ')' :: r) := rfl
  rw [heq, if_pos]
  simp [h1, h2]

theorem sub2UAux_flush (rep : List Char) :
    ∀ (x : List Char), (∀ c ∈ x, isPySpace c = false ∧ c ≠ '(') →
      ∀ r, CreateSlugs.sub2UAux rep [] none (x ++ r) = x ++ CreateSlugs.sub2UAux rep [] none r := by
  intro x
  induction x with
  | nil => intro _ r; rfl
  | cons c x ih =>
    intro h r
    obtain ⟨hws, hnp⟩ := h c (List.mem_cons_self _ _)
    have hb : (c == '(') = false := beq_eq_false_iff_ne.mpr hnp
    have heq : CreateSlugs.sub2UAux rep [] none (c :: (x ++ r))
        = if isPySpace c = true then CreateSlugs.sub2UAux rep [c] none (x ++ r)
          else if (c == '(') = true then CreateSlugs.sub2UAux rep [] (some []) (x ++ r)
          else List.reverse [] ++ c :: CreateSlugs.sub2UAux rep [] none (x ++ r) := rfl
    rw [List.cons_append, heq, if_neg (by simp [hws]), if_neg (by simp [hb]),
      ih (fun a ha => h a (List.mem_cons_of_mem _ ha)) r]
    rfl

theorem sub2UAux_no_paren (rep : List Char) :
    ∀ (z : List Char), '(' ∉ z →
      ∀ p, CreateSlugs.sub2UAux rep p none z = p.reverse ++ z := by
  intro z
  induction z with
  | nil => intro _ p; simp [CreateSlugs.sub2UAux]
  | cons c z ih =>
    intro h p
    have hnp : c ≠ '(' := fun heq => h (heq ▸ List.mem_cons_self c z)
    have hb : (c == '(') = false := beq_eq_false_iff_ne.mpr hnp
    have htl : '(' ∉ z := fun hx => h (List.mem_cons_of_mem _ hx)
    have heq : CreateSlugs.sub2UAux rep p none (c :: z)
        = if isPySpace c = true then CreateSlugs.sub2UAux rep (c :: p) none z
          else if (c == '(') = true then CreateSlugs.sub2UAux rep p (some []) z
          else p.reverse ++ c :: CreateSlugs.sub2UAux rep [] none z := rfl
    rw [heq]
    by_cases hws : isPySpace c = true
    · rw [if_pos hws, ih htl (c :: p)]
      simp
    · rw [if_neg hws, if_neg (by simp [hb]), ih htl []]
      simp

theorem sub2UAux_match (rep : List Char) (p : List Char) (u1 u2 : Char) (r : List Char)
    (h1 : isUpperA u1 = true) (h2 : isUpperA u2 = true) :
    CreateSlugs.sub2UAux rep p none (' ' :: '(' :: u1 :: u2 :: ')' :: r)
      = rep ++ CreateSlugs.sub2UAux rep [] none r := by
  have e1 : CreateSlugs.sub2UAux rep p none (' ' :: '(' :: u1 :: u2 :: ')' :: r)
      = CreateSlugs.sub2UAux rep (' ' :: p) (some []) (u1 :: u2 :: ')' :: r) := rfl
  have e2 : CreateSlugs.sub2UAux rep (' ' :: p) (some []) (u1 :: u2 :: ')' :: r)
      = if isUpperA u1 = true then CreateSlugs.sub2UAux rep (' ' :: p) (some [u1]) (u2 :: ')' :: r)
        else if isPySpace u1 = true then
          (' ' :: p).reverse ++ '(' :: CreateSlugs.sub2UAux rep [u1] none (u2 :: ')' :: r)
        else if (u1 == '(') = true then
          (' ' :: p).reverse ++ '(' :: CreateSlugs.sub2UAux rep [] (some []) (u2 :: ')' :: r)
        else (' ' :: p).reverse ++ '(' :: u1 :: CreateSlugs.sub2UAux rep [] none (u2 :: ')' :: r) := rfl
  have e3 : CreateSlugs.sub2UAux rep (' ' :: p) (some [u1]) (u2 :: ')' :: r)
      = if isUpperA u2 = true then CreateSlugs.sub2UAux rep (' ' :: p) (some [u1, u2]) (')' :: r)
        else if isPySpace u2 = true then
          (' ' :: p).reverse ++ '(' :: u1 :: CreateSlugs.sub2UAux rep [u2] none (')' :: r)
        else if (u2 == '(') = true then
          (' ' :: p).reverse ++ '(' :: u1 :: CreateSlugs.sub2UAux rep [] (some []) (')' :: r)
        else (' ' :: p).reverse ++ '(' :: u1 :: u2 :: CreateSlugs.sub2UAux rep [] none (')' :: r) := rfl
  have e4 : CreateSlugs.sub2UAux rep (' ' :: p) (some [u1, u2]) (')' :: r)
      = rep ++ CreateSlugs.sub2UAux rep [] none r := rfl
  rw [e1, e2, if_pos h1, e3, if_pos h2, e4]

/-- C2 amended: only the first two-uppercase-letter parenthetical is
inspected and its letters alone determine the replacement text, but the
substitution is applied to every whitespace-plus-parenthetical span: an
input with two such spans has both replaced with the lowercased code of
the FIRST span. -/
theorem paren_step_first_code_applied_to_all (x y z : List Char) (c1 c2 c3 c4 : Char)
    (h1 : isUpperA c1 = true) (h2 : isUpperA c2 = true)
    (h3 : isUpperA c3 = true) (h4 : isUpperA c4 = true)
    (hx : ∀ c ∈ x, isPySpace c = false ∧ c ≠ '(')
    (hy : ∀ c ∈ y, isPySpace c = false ∧ c ≠ '(')
    (hz : '(' ∉ z) :
    CreateSlugs.paren_step
        (x ++ ' ' :: '(' :: c1 :: c2 :: ')' :: (y ++ ' ' :: '(' :: c3 :: c4 :: ')' :: z))
      = x ++ '-' :: lowerChar c1 :: lowerChar c2
          :: (y ++ '-' :: lowerChar c1 :: lowerChar c2 :: z) := by
  have hxp : ∀ c ∈ x ++ [' '], c ≠ '(' := by
    intro c hc
    rcases List.mem_append.mp hc with hcx | hcs
    · exact (hx c hcx).2
    · simp only [List.mem_singleton] at hcs
      subst hcs
      decide
  have hsearch : CreateSlugs.searchParen2
      (x ++ ' ' :: '(' :: c1 :: c2 :: ')' :: (y ++ ' ' :: '(' :: c3 :: c4 :: ')' :: z))
      = some (c1, c2) := by
    have hre : x ++ ' ' :: '(' :: c1 :: c2 :: ')' :: (y ++ ' ' :: '(' :: c3 :: c4 :: ')' :: z)
        = (x ++ [' ']) ++ '(' :: c1 :: c2 :: ')' :: (y ++ ' ' :: '(' :: c3 :: c4 :: ')' :: z) := by
      simp
    rw [hre, searchParen2_append_left _ _ hxp, searchParen2_head_found _ _ _ h1 h2]
  rw [CreateSlugs.paren_step, hsearch]
  show CreateSlugs.sub2UAux ['-', lowerChar c1, lowerChar c2] [] none
      (x ++ ' ' :: '(' :: c1 :: c2 :: ')' :: (y ++ ' ' :: '(' :: c3 :: c4 :: ')' :: z))
    = x ++ '-' :: lowerChar c1 :: lowerChar c2 :: (y ++ '-' :: lowerChar c1 :: lowerChar c2 :: z)
  rw [sub2UAux_flush _ x hx, sub2UAux_match _ _ _ _ _ h1 h2,
    sub2UAux_flush _ y hy, sub2UAux_match _ _ _ _ _ h3 h4,
    sub2UAux_no_paren _ z hz []]
  rfl

/-- C2 amended witness: a concrete input with two spans, both replaced by
the first span's code. -/
theorem paren_step_first_code_applied_to_all_witness :
    CreateSlugs.paren_step
        ((("B").toList) ++ ' ' :: '(' :: 'C' :: 'A' :: ')'
          :: (([] : List Char) ++ ' ' :: '(' :: 'T' :: 'X' :: ')' :: ([] : List Char)))
      = (("B").toList) ++ '-' :: lowerChar 'C' :: lowerChar 'A'
          :: (([] : List Char) ++ '-' :: lowerChar 'C' :: lowerChar 'A' :: ([] : List Char)) :=
  paren_step_first_code_applied_to_all (("B").toList) [] [] 'C' 'A' 'T' 'X'
    (by decide) (by decide) (by decide) (by decide) (by decide) (by decide) (by decide)

theorem subParensAux_head_part :
    ∀ (a : List Char), '(' ∉ a →
      (∀ c, a.getLast? = some c → isPySpace c = false) → a ≠ [] →
      ∀ p r, CreateSlugs.subParensAux p none (a ++ r)
        = p.reverse ++ a ++ CreateSlugs.subParensAux [] none r := by
  intro a
  induction a with
  | nil => intro _ _ hne; exact absurd rfl hne
  | cons c a ih =>
    intro hnp hlast _
    cases a with
    | nil =>
      intro p r
      have hws : isPySpace c = false := hlast c rfl
      have hb : (c == '(') = false :=
        beq_eq_false_iff_ne.mpr (fun heq => hnp (heq ▸ List.mem_cons_self c []))
      have heq : CreateSlugs.subParensAux p none (c :: r)
          = if isPySpace c = true then CreateSlugs.subParensAux (c :: p) none r
            else if (c == '(') = true then CreateSlugs.subParensAux p (some []) r
            else p.reverse ++ c :: CreateSlugs.subParensAux [] none r := rfl
      rw [List.cons_append, List.nil_append, heq, if_neg (by simp [hws]), if_neg (by simp [hb])]
      simp
    | cons d a2 =>
      intro p r
      have hlast2 : ∀ x, (d :: a2).getLast? = some x → isPySpace x = false := by
        intro x hx
        exact hlast x (by rw [List.getLast?_cons_cons]; exact hx)
      have hnp2 : '(' ∉ (d :: a2) := fun hx => hnp (List.mem_cons_of_mem _ hx)
      have hcnp : c ≠ '(' := fun heq => hnp (heq ▸ List.mem_cons_self _ _)
      have hb : (c == '(') = false := beq_eq_false_iff_ne.mpr hcnp
      have heq : CreateSlugs.subParensAux p none (c :: ((d :: a2) ++ r))
          = if isPySpace c = true then CreateSlugs.subParensAux (c :: p) none ((d :: a2) ++ r)
            else if (c == '(') = true then CreateSlugs.subParensAux p (some []) ((d :: a2) ++ r)
            else p.reverse ++ c :: CreateSlugs.subParensAux [] none ((d :: a2) ++ r) := rfl
      rw [List.cons_append, heq]
      by_cases hws : isPySpace c = true
      · rw [if_pos hws, ih hnp2 hlast2 (by simp) (c :: p) r]
        simp
      · rw [if_neg hws, if_neg (by simp [hb]), ih hnp2 hlast2 (by simp) [] r]
        simp

theorem subParensAux_content :
    ∀ (content : List Char), ')' ∉ content →
      ∀ p buf r, CreateSlugs.subParensAux p (some buf) (content ++ r)
        = CreateSlugs.subParensAux p (some (content.reverse ++ buf)) r := by
  intro content
  induction content with
  | nil => intro _ p buf r; simp
  | cons c cc ih =>
    intro h p buf r
    have hb : (c == ')') = false :=
      beq_eq_false_iff_ne.mpr (fun heq => h (heq ▸ List.mem_cons_self c cc))
    have heq : CreateSlugs.subParensAux p (some buf) (c :: (cc ++ r))
        = if (c == ')') = true then CreateSlugs.subParensAux [] none (cc ++ r)
          else CreateSlugs.subParensAux p (some (c :: buf)) (cc ++ r) := rfl
    rw [List.cons_append, heq, if_neg (by simp [hb]),
      ih (fun hx => h (List.mem_cons_of_mem _ hx)) p (c :: buf) r]
    have hl : (c :: cc).reverse ++ buf = cc.reverse ++ (c :: buf) := by simp
    rw [hl]

theorem subParensAux_span (content b : List Char) (hc : ')' ∉ content) (p : List Char) :
    CreateSlugs.subParensAux p none ('(' :: (content ++ ')' :: b))
      = CreateSlugs.subParensAux [] none b := by
  have e1 : CreateSlugs.subParensAux p none ('(' :: (content ++ ')' :: b))
      = CreateSlugs.subParensAux p (some []) (content ++ ')' :: b) := rfl
  rw [e1, subParensAux_content content hc p [] (')' :: b)]
  rfl

/-- C5 counterexample: in "Miami (FL) (abc)" the parenthetical "(abc)" is
not two uppercase letters, yet its content survives: the two-uppercase
branch is taken because of "(FL)", and that branch only rewrites
two-uppercase spans, so create_slug returns "miami-fl-abc", which contains
"abc". -/
theorem create_slug_keeps_unmatched_descriptive_span :
    CreateSlugs.create_slug (("Miami (FL) (abc)").toList) = ("miami-fl-abc").toList ∧
      (("abc").toList) <:+: (("miami-fl-abc").toList) :=
  ⟨rfl, by decide⟩

/-- C5 amended: when the input contains no two-uppercase-letter
parenthetical (the descriptive-deletion branch is taken), create_slug
removes a parenthesized span together with its preceding whitespace run:
the slug of the input equals the slug of the input with the span and that
whitespace deleted.  `a` is the part before the whitespace run (ending in
a non-whitespace, non-parenthesis character), `content` the span content
(no closing parenthesis), `b` the rest. -/
theorem create_slug_deletes_descriptive_paren (a w content b : List Char)
    (ha : '(' ∉ a)
    (hlast : ∀ c, a.getLast? = some c → isPySpace c = false)
    (hw : ∀ c ∈ w, isPySpace c = true)
    (hcontent : ')' ∉ content)
    (hsearch : CreateSlugs.searchParen2 (a ++ (w ++ '(' :: (content ++ ')' :: b))) = none) :
    CreateSlugs.create_slug (a ++ (w ++ '(' :: (content ++ ')' :: b)))
      = CreateSlugs.create_slug (a ++ b) := by
  have hd1 : CreateSlugs.searchParen2 (w ++ '(' :: (content ++ ')' :: b)) = none :=
    searchParen2_none_drop a _ hsearch
  have hd2 : CreateSlugs.searchParen2 b = none := by
    have hre : w ++ '(' :: (content ++ ')' :: b) = (w ++ '(' :: content ++ [')']) ++ b := by
      simp
    rw [hre] at hd1
    exact searchParen2_none_drop _ _ hd1
  have hab : CreateSlugs.searchParen2 (a ++ b) = none := by
    rw [searchParen2_append_left a b (fun c hc heq => ha (heq ▸ hc))]
    exact hd2
  have hsub : CreateSlugs.subParensAux [] none (a ++ (w ++ '(' :: (content ++ ')' :: b)))
      = a ++ CreateSlugs.subParensAux [] none b := by
    by_cases hane : a = []
    · subst hane
      rw [List.nil_append, List.nil_append,
        subParensAux_all_ws w hw [] ('(' :: (content ++ ')' :: b)),
        subParensAux_span content b hcontent _]
    · rw [subParensAux_head_part a ha hlast hane [] _,
        subParensAux_all_ws w hw [] ('(' :: (content ++ ')' :: b)),
        subParensAux_span content b hcontent _]
      simp
  have hsub2 : CreateSlugs.subParensAux [] none (a ++ b)
      = a ++ CreateSlugs.subParensAux [] none b := by
    by_cases hane : a = []
    · subst hane
      simp
    · rw [subParensAux_head_part a ha hlast hane [] b]
      simp
  have hps1 : CreateSlugs.paren_step (a ++ (w ++ '(' :: (content ++ ')' :: b)))
      = a ++ CreateSlugs.subParensAux [] none b := by
    rw [CreateSlugs.paren_step, hsearch]
    exact hsub
  have hps2 : CreateSlugs.paren_step (a ++ b)
      = a ++ CreateSlugs.subParensAux [] none b := by
    rw [CreateSlugs.paren_step, hab]
    exact hsub2
  simp only [CreateSlugs.create_slug]
  rw [hps1, hps2]

/-- C5 amended witness: "Albany (ny)" (no two-uppercase parenthetical)
gets the same slug as "Albany". -/
theorem create_slug_deletes_descriptive_paren_witness :
    CreateSlugs.create_slug ((("Albany").toList) ++ ([' '] ++ '(' :: ((("ny").toList) ++ ')' :: ([] : List Char))))
      = CreateSlugs.create_slug ((("Albany").toList) ++ ([] : List Char)) :=
  create_slug_deletes_descriptive_paren (("Albany").toList) [' '] (("ny").toList) []
    (by decide)
    (fun c hc => by
      have h0 : (("Albany").toList).getLast? = some 'y' := rfl
      rw [h0] at hc
      injection hc with h1
      rw [← h1]
      rfl)
    (by decide) (by decide) (by decide)
